import Mathlib

/-!
Shallow embedding of `src/SmartCalculator/SmartCalculator.cpp`.

The C++ program evaluates arithmetic expressions: a lexer (`GetNextToken`),
a shunting-yard infix-to-postfix converter (`InfixToPostfix`), and a postfix
evaluator (`EvaluatePostfix`), sharing a variable store
(`std::map<std::string, double>`).

Modelling choices:
* `double` is modelled by `ℚ`.  Every arithmetic step exercised by the
  claims (small integer sums, products, integer powers, decimal-literal
  accumulation) is exact in IEEE double for the inputs used, so the rational
  model agrees with the C++ program on those runs.
* The C math library (`sin`, `cos`, `tan`, `log`, `sqrt`, `exp`) is a
  parameter `F : String → ℚ → ℚ` of the semantics: those functions are
  real-valued and have no exact rational counterpart.  No claim depends on
  their values.
* `pow` on integer exponents is modelled exactly (`powTen`, `powRat`);
  non-integer exponents (never produced by any claim's input) fall back to a
  default value, see `powRat`.
* C++ exceptions are modelled by `Except Err`.  Because the variable store
  is passed by reference in C++, every function that can both throw and
  mutate returns the store alongside the `Except` result, so that the store
  contents at throw time are observable.
* Reading or popping an empty `std::stack` is undefined behaviour in C++;
  the model marks any such access with the distinguished outcome
  `Err.stackUnderflow`, which records that the unguarded empty-stack access
  was reached (it does not ascribe a concrete behaviour to it).
* The C++ `while (index < expression.size())` loop of `InfixToPostfix` and
  its mutual recursion with `EvaluateExpression` are modelled with a fuel
  parameter; `Err.outOfFuel` marks fuel exhaustion.  The top-level entry
  points supply fuel `length + 1`, which is sufficient because every loop
  iteration consumes at least one input character.
-/

namespace SmartCalc

/-- Token kinds, mirroring `enum TokenType` of the source. -/
inductive TokenType where
  | NUMBER
  | OPERATOR
  | FUNCTION
  | VARIABLE
  | ASSIGNMENT
  | PARENTHESIS
  | END
deriving DecidableEq, Repr

/-- Mirror of `struct Token`: one record with all payload fields, as in the
source (unused fields are zeroed, as in the C++ brace initialisers). -/
structure Token where
  type : TokenType
  value : ℚ
  op : Char
  func : String
deriving DecidableEq, Repr

/-- Error outcomes.  The first five correspond to the `std::runtime_error`
throws of the source.  `stackUnderflow` marks a read or pop of an empty
`std::stack` (undefined behaviour in the C++ source, made observable here);
`outOfFuel` marks exhaustion of the model's loop/recursion fuel. -/
inductive Err where
  | unexpectedCharacter (c : Char)
  | divisionByZero
  | unknownOperator
  | unknownFunction (f : String)
  | undefinedVariable (name : String)
  | stackUnderflow
  | outOfFuel
deriving DecidableEq, Repr

/-- C `'\0'`, used where the C++ brace initialisers put `0` in the `op`
field. -/
def nullChar : Char := Char.ofNat 0

def numTok (v : ℚ) : Token := ⟨TokenType.NUMBER, v, nullChar, ""⟩

def opTok (c : Char) : Token := ⟨TokenType.OPERATOR, 0, c, ""⟩

def parenTok (c : Char) : Token := ⟨TokenType.PARENTHESIS, 0, c, ""⟩

def funcTok (name : String) : Token := ⟨TokenType.FUNCTION, 0, nullChar, name⟩

def varTok (name : String) : Token := ⟨TokenType.VARIABLE, 0, nullChar, name⟩

def assignTok (name : String) : Token := ⟨TokenType.ASSIGNMENT, 0, nullChar, name⟩

def endTok : Token := ⟨TokenType.END, 0, nullChar, ""⟩

/-- C `isspace` on the default locale (ASCII). -/
def isspaceC (c : Char) : Bool :=
  c = ' ' || c = '\t' || c = '\n' || c = '\x0b' || c = '\x0c' || c = '\r'

/-- C `isdigit`. -/
def isdigitC (c : Char) : Bool := '0' ≤ c && c ≤ '9'

/-- C `isalpha` on the default locale (ASCII). -/
def isalphaC (c : Char) : Bool := ('a' ≤ c && c ≤ 'z') || ('A' ≤ c && c ≤ 'Z')

/-- C `isalnum` on the default locale (ASCII). -/
def isalnumC (c : Char) : Bool := isalphaC c || isdigitC c

/-- The character class of `strchr("+-*/^=()", c)` in the source (note that
`'='` is a member). -/
def opChars : List Char := ['+', '-', '*', '/', '^', '=', '(', ')']

/-- Mirror of the global `std::map<char, int> precedences`. -/
def precedences : List (Char × Nat) :=
  [('+', 1), ('-', 1), ('*', 2), ('/', 2), ('^', 3)]

/-- Mirror of the global `std::set<std::string> functions`. -/
def functions : List String := ["sin", "cos", "tan", "log", "sqrt", "exp"]

/-- Mirror of `GetPrecedence`: look the character up in `precedences`,
defaulting to `0` when absent. -/
def GetPrecedence (c : Char) : Nat :=
  match List.lookup c precedences with
  | some p => p
  | none => 0

/-- C `pow(10, e)` at an integer exponent, exact over `ℚ`. -/
def powTen (e : Int) : ℚ :=
  if 0 ≤ e then (10 : ℚ) ^ e.toNat else ((10 : ℚ) ^ (-e).toNat)⁻¹

/-- C `pow(first, second)` restricted to the rational model: exact when the
exponent is an integer (the only case any claim exercises); for a
non-integer exponent the C computation is a real-valued power with no
rational counterpart, and the model returns `0` there. -/
def powRat (first second : ℚ) : ℚ :=
  if second.den = 1 then
    if 0 ≤ second.num then first ^ second.num.toNat
    else (first ^ (-second.num).toNat)⁻¹
  else 0

/-- Mirror of `GetOperatorResult` (the `switch` over the operator
character). -/
def GetOperatorResult (op : Char) (first second : ℚ) : Except Err ℚ :=
  if op = '+' then Except.ok (first + second)
  else if op = '-' then Except.ok (first - second)
  else if op = '*' then Except.ok (first * second)
  else if op = '/' then
    if second = 0 then Except.error Err.divisionByZero
    else Except.ok (first / second)
  else if op = '^' then Except.ok (powRat first second)
  else Except.error Err.unknownOperator

/-- Mirror of `GetFunctionResult`; the math-library functions themselves are
the parameter `F`. -/
def GetFunctionResult (F : String → ℚ → ℚ) (func : String) (arg : ℚ) :
    Except Err ℚ :=
  if func = "sin" then Except.ok (F "sin" arg)
  else if func = "cos" then Except.ok (F "cos" arg)
  else if func = "tan" then Except.ok (F "tan" arg)
  else if func = "log" then Except.ok (F "log" arg)
  else if func = "sqrt" then Except.ok (F "sqrt" arg)
  else if func = "exp" then Except.ok (F "exp" arg)
  else Except.error (Err.unknownFunction func)

/-- The variable store `std::map<std::string, double>`, as an association
list. -/
abbrev VarStore := List (String × ℚ)

/-- `variables[name] = value`: overwrite the existing entry or insert a new
one. -/
def setVar (name : String) (value : ℚ) : VarStore → VarStore
  | [] => [(name, value)]
  | (k, v) :: rest =>
      if k = name then (k, value) :: rest else (k, v) :: setVar name value rest

/-- `variables[name]` as an rvalue: `std::map::operator[]` returns the
stored value, default-inserting `0` when the key is absent.  (In the source
it is only reached under a `find` guard, so the inserting branch is never
taken there; the model keeps it to stay faithful to `operator[]`.) -/
def mapGet (vars : VarStore) (name : String) : ℚ × VarStore :=
  match List.lookup name vars with
  | some v => (v, vars)
  | none => (0, vars ++ [(name, 0)])

/-- The leading-whitespace skip loops of `GetNextToken`. -/
def skipSpaces : List Char → List Char
  | [] => []
  | c :: cs => if isspaceC c then skipSpaces cs else c :: cs

/-- The digit value `expression[index] - '0'`. -/
def digitVal (c : Char) : ℚ := ((c.toNat - '0'.toNat : ℕ) : ℚ)

/-- The numeric-literal loop of `GetNextToken` (source lines 89-121): `num`
accumulates the value, `decimals` is `-1` before any `.` and is set to `0`
at each `.`; a digit read with `decimals ≠ -1` contributes
`digit * pow(10, -decimals)` and then increments `decimals`. -/
def lexNumber : List Char → ℚ → Int → ℚ × List Char
  | [], num, _ => (num, [])
  | c :: cs, num, decimals =>
      if isdigitC c || c = '.' then
        if c = '.' then lexNumber cs num 0
        else if decimals = -1 then lexNumber cs (num * 10 + digitVal c) decimals
        else lexNumber cs (num + digitVal c * powTen (-decimals)) (decimals + 1)
      else (num, c :: cs)

/-- The identifier loop of `GetNextToken` (accumulate `isalnum`
characters). -/
def lexIdent : List Char → String → String × List Char
  | [], name => (name, [])
  | c :: cs, name =>
      if isalnumC c then lexIdent cs (name.push c) else (name, c :: cs)

/-- After an identifier was read and trailing whitespace skipped (source
lines 136-155): if the next character is `=`, consume it and emit
`ASSIGNMENT`; else emit `FUNCTION` when the name is a recognised function,
`VARIABLE` otherwise. -/
def afterIdent (name : String) (rest : List Char) :
    Except Err (Token × List Char) :=
  match rest with
  | c2 :: rest2 =>
      if c2 = '=' then Except.ok (assignTok name, rest2)
      else if functions.contains name then Except.ok (funcTok name, c2 :: rest2)
      else Except.ok (varTok name, c2 :: rest2)
  | [] =>
      if functions.contains name then Except.ok (funcTok name, [])
      else Except.ok (varTok name, [])

/-- Mirror of `GetNextToken`.  The `(expression, index)` pair of the source
is represented by the list of not-yet-consumed characters; the returned list
is the input at the updated index. -/
def GetNextToken (chars : List Char) : Except Err (Token × List Char) :=
  match skipSpaces chars with
  | [] => Except.ok (endTok, [])
  | c :: cs =>
      if isdigitC c || c = '.' then
        let r := lexNumber (c :: cs) 0 (-1)
        Except.ok (numTok r.1, r.2)
      else if isalphaC c then
        let r := lexIdent (c :: cs) ""
        afterIdent r.1 (skipSpaces r.2)
      else if opChars.contains c then
        Except.ok (if c = '(' || c = ')' then parenTok c else opTok c, cs)
      else Except.error (Err.unexpectedCharacter c)

/-- The loop of `EvaluatePostfix` (source lines 319-363).  The operand
stack is a `List ℚ` with the head as `stack.top()`.  An operator pops the
right-hand operand first, then the left-hand one (`top` then `bottom` in the
source) and applies `GetOperatorResult(op, bottom, top)`.  Accessing an
empty stack (undefined behaviour in C++) yields `Err.stackUnderflow`. -/
def EvaluatePostfixGo (F : String → ℚ → ℚ) :
    List Token → List ℚ → VarStore → Except Err ℚ × VarStore
  | [], stack, vars =>
      match stack with
      | v :: _ => (Except.ok v, vars)
      | [] => (Except.error Err.stackUnderflow, vars)
  | token :: rest, stack, vars =>
      match token.type with
      | TokenType.NUMBER => EvaluatePostfixGo F rest (token.value :: stack) vars
      | TokenType.VARIABLE =>
          match List.lookup token.func vars with
          | some _ =>
              let r := mapGet vars token.func
              EvaluatePostfixGo F rest (r.1 :: stack) r.2
          | none => (Except.error (Err.undefinedVariable token.func), vars)
      | TokenType.OPERATOR =>
          match stack with
          | top :: bottom :: stack2 =>
              match GetOperatorResult token.op bottom top with
              | Except.ok r => EvaluatePostfixGo F rest (r :: stack2) vars
              | Except.error e => (Except.error e, vars)
          | _ => (Except.error Err.stackUnderflow, vars)
      | TokenType.FUNCTION =>
          match stack with
          | arg :: stack2 =>
              match GetFunctionResult F token.func arg with
              | Except.ok r => EvaluatePostfixGo F rest (r :: stack2) vars
              | Except.error e => (Except.error e, vars)
          | [] => (Except.error Err.stackUnderflow, vars)
      | _ => EvaluatePostfixGo F rest stack vars

/-- Mirror of `EvaluatePostfix`: run the loop with an empty operand stack
and finish with `return stack.top()`. -/
def EvaluatePostfix (F : String → ℚ → ℚ) (output : List Token)
    (vars : VarStore) : Except Err ℚ × VarStore :=
  EvaluatePostfixGo F output [] vars

/-- The operator case of the shunting-yard loop: pop to output while the
stack is non-empty and the top's precedence is `≥` the incoming
operator's.  Returns the remaining stack and the extended output. -/
def popGE (op : Char) : List Token → List Token → List Token × List Token
  | [], result => ([], result)
  | t :: ts, result =>
      if GetPrecedence op ≤ GetPrecedence t.op then popGE op ts (result ++ [t])
      else (t :: ts, result)

/-- The `')'` case of the shunting-yard loop: pop to output while the stack
is non-empty and the top is not `'('`. -/
def popUntilParen : List Token → List Token → List Token × List Token
  | [], result => ([], result)
  | t :: ts, result =>
      if t.op = '(' then (t :: ts, result) else popUntilParen ts (result ++ [t])

/-- The loop of `InfixToPostfix` (source lines 248-317), with the operator
stack as a `List Token` (head = top) and fuel for the `while` loop and the
mutual recursion with `EvaluateExpression`.  The `ASSIGNMENT` case inlines
the body of `EvaluateExpression` applied to the remaining characters (the
source's `expression.substr(index)`), stores the result, and returns the
single-`NUMBER` output, discarding the stack and output built so far.  The
unconditional `stack.pop()` after the `')'` scan hits an empty stack
(C++ undefined behaviour) exactly when no `'('` was found; the model marks
that with `Err.stackUnderflow`. -/
def InfixToPostfixGo (F : String → ℚ → ℚ) :
    Nat → List Char → List Token → List Token → VarStore →
      Except Err (List Token) × VarStore
  | 0, _, _, _, vars => (Except.error Err.outOfFuel, vars)
  | _ + 1, [], stack, result, vars => (Except.ok (result ++ stack), vars)
  | fuel + 1, c :: cs, stack, result, vars =>
      match GetNextToken (c :: cs) with
      | Except.error e => (Except.error e, vars)
      | Except.ok (token, rest) =>
          match token.type with
          | TokenType.NUMBER =>
              InfixToPostfixGo F fuel rest stack (result ++ [token]) vars
          | TokenType.VARIABLE =>
              InfixToPostfixGo F fuel rest stack (result ++ [token]) vars
          | TokenType.FUNCTION =>
              InfixToPostfixGo F fuel rest stack (result ++ [token]) vars
          | TokenType.OPERATOR =>
              let r := popGE token.op stack result
              InfixToPostfixGo F fuel rest (token :: r.1) r.2 vars
          | TokenType.PARENTHESIS =>
              if token.op = '(' then
                InfixToPostfixGo F fuel rest (token :: stack) result vars
              else if token.op = ')' then
                let r := popUntilParen stack result
                match r.1 with
                | _ :: stack2 => InfixToPostfixGo F fuel rest stack2 r.2 vars
                | [] => (Except.error Err.stackUnderflow, vars)
              else InfixToPostfixGo F fuel rest stack result vars
          | TokenType.ASSIGNMENT =>
              let inner :=
                match InfixToPostfixGo F fuel rest [] [] vars with
                | (Except.ok output, vars1) => EvaluatePostfix F output vars1
                | (Except.error e, vars1) => (Except.error e, vars1)
              match inner with
              | (Except.ok value, vars1) =>
                  (Except.ok [numTok value], setVar token.func value vars1)
              | (Except.error e, vars1) => (Except.error e, vars1)
          | TokenType.END =>
              InfixToPostfixGo F fuel rest stack result vars

/-- Body of `EvaluateExpression` at a given fuel: convert to postfix, then
evaluate.  The `ASSIGNMENT` case of `InfixToPostfixGo` at fuel `f + 1` is
definitionally this function at fuel `f`. -/
def EvaluateExpressionGo (F : String → ℚ → ℚ) (fuel : Nat)
    (chars : List Char) (vars : VarStore) : Except Err ℚ × VarStore :=
  match InfixToPostfixGo F fuel chars [] [] vars with
  | (Except.ok output, vars1) => EvaluatePostfix F output vars1
  | (Except.error e, vars1) => (Except.error e, vars1)

/-- Mirror of `EvaluateExpression`: fuel `length + 1` is enough because
every loop iteration consumes at least one character. -/
def EvaluateExpression (F : String → ℚ → ℚ) (chars : List Char)
    (vars : VarStore) : Except Err ℚ × VarStore :=
  EvaluateExpressionGo F (chars.length + 1) chars vars

/-- Mirror of `InfixToPostfix` as a top-level entry point. -/
def InfixToPostfix (F : String → ℚ → ℚ) (chars : List Char)
    (vars : VarStore) : Except Err (List Token) × VarStore :=
  InfixToPostfixGo F (chars.length + 1) chars [] [] vars

/-- A stand-in interpretation of the math library, used to instantiate the
parameter `F` in concrete runs; no claim's input reaches a function
application. -/
def F0 : String → ℚ → ℚ := fun _ _ => 0

instance instDecEqExcept {ε α : Type} [DecidableEq ε] [DecidableEq α] :
    DecidableEq (Except ε α) := fun x y =>
  match x, y with
  | Except.ok a, Except.ok b =>
      if h : a = b then isTrue (by rw [h])
      else isFalse (by intro hc; cases hc; exact h rfl)
  | Except.ok _, Except.error _ => isFalse (by intro hc; cases hc)
  | Except.error _, Except.ok _ => isFalse (by intro hc; cases hc)
  | Except.error e, Except.error f =>
      if h : e = f then isTrue (by rw [h])
      else isFalse (by intro hc; cases hc; exact h rfl)

/-- Well-formedness of a postfix sequence with respect to operand-stack
height `h`: every `OPERATOR` finds at least two operands, every `FUNCTION`
at least one, tokens of other kinds are ignored by the evaluator, and
exactly one value remains at the end. -/
def wfPostfix : List Token → Nat → Bool
  | [], h => h == 1
  | t :: ts, h =>
      match t.type with
      | TokenType.NUMBER => wfPostfix ts (h + 1)
      | TokenType.VARIABLE => wfPostfix ts (h + 1)
      | TokenType.OPERATOR => decide (2 ≤ h) && wfPostfix ts (h - 1)
      | TokenType.FUNCTION => decide (1 ≤ h) && wfPostfix ts h
      | _ => wfPostfix ts h

/-- The postfix evaluator threads the store through but never changes it:
the returned store is the argument, on every path (the source's
`EvaluatePostfix` takes `variables` by reference and only reads it). -/
theorem EvaluatePostfixGo_store (F : String → ℚ → ℚ) :
    ∀ (ts : List Token) (stack : List ℚ) (vars : VarStore),
      (EvaluatePostfixGo F ts stack vars).2 = vars := by
  intro ts
  induction ts with
  | nil =>
      intro stack vars
      cases stack <;> rfl
  | cons t ts ih =>
      intro stack vars
      cases ht : t.type with
      | NUMBER =>
          simp only [EvaluatePostfixGo, ht]
          exact ih _ _
      | VARIABLE =>
          cases hl : List.lookup t.func vars with
          | none => simp [EvaluatePostfixGo, ht, hl]
          | some v =>
              simp only [EvaluatePostfixGo, ht, hl, mapGet]
              exact ih _ _
      | OPERATOR =>
          cases stack with
          | nil => simp [EvaluatePostfixGo, ht]
          | cons a s1 =>
              cases s1 with
              | nil => simp [EvaluatePostfixGo, ht]
              | cons b s2 =>
                  cases hop : GetOperatorResult t.op b a with
                  | ok r =>
                      simp only [EvaluatePostfixGo, ht, hop]
                      exact ih _ _
                  | error e => simp [EvaluatePostfixGo, ht, hop]
      | FUNCTION =>
          cases stack with
          | nil => simp [EvaluatePostfixGo, ht]
          | cons a s1 =>
              cases hf : GetFunctionResult F t.func a with
              | ok r =>
                  simp only [EvaluatePostfixGo, ht, hf]
                  exact ih _ _
              | error e => simp [EvaluatePostfixGo, ht, hf]
      | ASSIGNMENT =>
          simp only [EvaluatePostfixGo, ht]
          exact ih _ _
      | PARENTHESIS =>
          simp only [EvaluatePostfixGo, ht]
          exact ih _ _
      | END =>
          simp only [EvaluatePostfixGo, ht]
          exact ih _ _

/-- Evaluating the single-`NUMBER` output produced by an assignment always
succeeds with that number and the unchanged store. -/
theorem EvaluatePostfix_single_num (F : String → ℚ → ℚ) (v : ℚ)
    (vars : VarStore) : EvaluatePostfix F [numTok v] vars = (Except.ok v, vars) := rfl

/-- When the converter succeeds, either the store is unchanged (no
assignment was reached) or the output is the single-`NUMBER` sequence the
assignment short-circuit returns. -/
theorem InfixToPostfixGo_ok_store (F : String → ℚ → ℚ) :
    ∀ (fuel : Nat) (chars : List Char) (stack result : List Token)
      (vars vars1 : VarStore) (out : List Token),
      InfixToPostfixGo F fuel chars stack result vars = (Except.ok out, vars1) →
      vars1 = vars ∨ ∃ v, out = [numTok v] := by
  intro fuel
  induction fuel with
  | zero =>
      intro chars stack result vars vars1 out h
      simp [InfixToPostfixGo] at h
  | succ n ih =>
      intro chars stack result vars vars1 out h
      cases chars with
      | nil =>
          simp only [InfixToPostfixGo, Prod.mk.injEq] at h
          exact Or.inl h.2.symm
      | cons c cs =>
          cases hgt : GetNextToken (c :: cs) with
          | error e2 => simp [InfixToPostfixGo, hgt] at h
          | ok p =>
              obtain ⟨token, rest⟩ := p
              cases htt : token.type with
              | NUMBER =>
                  simp only [InfixToPostfixGo, hgt, htt] at h
                  exact ih _ _ _ _ _ _ h
              | VARIABLE =>
                  simp only [InfixToPostfixGo, hgt, htt] at h
                  exact ih _ _ _ _ _ _ h
              | FUNCTION =>
                  simp only [InfixToPostfixGo, hgt, htt] at h
                  exact ih _ _ _ _ _ _ h
              | OPERATOR =>
                  simp only [InfixToPostfixGo, hgt, htt] at h
                  exact ih _ _ _ _ _ _ h
              | PARENTHESIS =>
                  by_cases hpo : token.op = '('
                  · simp only [InfixToPostfixGo, hgt, htt, if_pos hpo] at h
                    exact ih _ _ _ _ _ _ h
                  · by_cases hpc : token.op = ')'
                    · cases hpop : (popUntilParen stack result).1 with
                      | nil =>
                          simp only [InfixToPostfixGo, hgt, htt, if_neg hpo,
                            if_pos hpc, hpop] at h
                          simp at h
                      | cons t2 stack2 =>
                          simp only [InfixToPostfixGo, hgt, htt, if_neg hpo,
                            if_pos hpc, hpop] at h
                          exact ih _ _ _ _ _ _ h
                    · simp only [InfixToPostfixGo, hgt, htt, if_neg hpo,
                        if_neg hpc] at h
                      exact ih _ _ _ _ _ _ h
              | ASSIGNMENT =>
                  cases hin : InfixToPostfixGo F n rest [] [] vars with
                  | mk r0 v0 =>
                      cases r0 with
                      | error e0 =>
                          simp only [InfixToPostfixGo, hgt, htt, hin] at h
                          simp at h
                      | ok p0 =>
                          cases hev : EvaluatePostfix F p0 v0 with
                          | mk r1 v1 =>
                              cases r1 with
                              | ok value =>
                                  simp only [InfixToPostfixGo, hgt, htt, hin, hev,
                                    Prod.mk.injEq, Except.ok.injEq] at h
                                  exact Or.inr ⟨value, h.1.symm⟩
                              | error e1 =>
                                  simp only [InfixToPostfixGo, hgt, htt, hin, hev] at h
                                  simp at h
              | END =>
                  simp only [InfixToPostfixGo, hgt, htt] at h
                  exact ih _ _ _ _ _ _ h

/-- When the converter fails, the store is unchanged: the only store write
(`variables[varName] = value`) happens after the assignment's right-hand
side evaluated successfully, and then the converter returns successfully. -/
theorem InfixToPostfixGo_error_store (F : String → ℚ → ℚ) :
    ∀ (fuel : Nat) (chars : List Char) (stack result : List Token)
      (vars vars1 : VarStore) (e : Err),
      InfixToPostfixGo F fuel chars stack result vars = (Except.error e, vars1) →
      vars1 = vars := by
  intro fuel
  induction fuel with
  | zero =>
      intro chars stack result vars vars1 e h
      simp only [InfixToPostfixGo, Prod.mk.injEq] at h
      exact h.2.symm
  | succ n ih =>
      intro chars stack result vars vars1 e h
      cases chars with
      | nil => simp [InfixToPostfixGo] at h
      | cons c cs =>
          cases hgt : GetNextToken (c :: cs) with
          | error e2 =>
              simp only [InfixToPostfixGo, hgt, Prod.mk.injEq] at h
              exact h.2.symm
          | ok p =>
              obtain ⟨token, rest⟩ := p
              cases htt : token.type with
              | NUMBER =>
                  simp only [InfixToPostfixGo, hgt, htt] at h
                  exact ih _ _ _ _ _ _ h
              | VARIABLE =>
                  simp only [InfixToPostfixGo, hgt, htt] at h
                  exact ih _ _ _ _ _ _ h
              | FUNCTION =>
                  simp only [InfixToPostfixGo, hgt, htt] at h
                  exact ih _ _ _ _ _ _ h
              | OPERATOR =>
                  simp only [InfixToPostfixGo, hgt, htt] at h
                  exact ih _ _ _ _ _ _ h
              | PARENTHESIS =>
                  by_cases hpo : token.op = '('
                  · simp only [InfixToPostfixGo, hgt, htt, if_pos hpo] at h
                    exact ih _ _ _ _ _ _ h
                  · by_cases hpc : token.op = ')'
                    · cases hpop : (popUntilParen stack result).1 with
                      | nil =>
                          simp only [InfixToPostfixGo, hgt, htt, if_neg hpo,
                            if_pos hpc, hpop, Prod.mk.injEq] at h
                          exact h.2.symm
                      | cons t2 stack2 =>
                          simp only [InfixToPostfixGo, hgt, htt, if_neg hpo,
                            if_pos hpc, hpop] at h
                          exact ih _ _ _ _ _ _ h
                    · simp only [InfixToPostfixGo, hgt, htt, if_neg hpo,
                        if_neg hpc] at h
                      exact ih _ _ _ _ _ _ h
              | ASSIGNMENT =>
                  cases hin : InfixToPostfixGo F n rest [] [] vars with
                  | mk r0 v0 =>
                      cases r0 with
                      | error e0 =>
                          simp only [InfixToPostfixGo, hgt, htt, hin,
                            Prod.mk.injEq] at h
                          rw [h.2.symm]
                          exact ih _ _ _ _ _ _ hin
                      | ok p0 =>
                          cases hev : EvaluatePostfix F p0 v0 with
                          | mk r1 v1 =>
                              cases r1 with
                              | ok value =>
                                  simp only [InfixToPostfixGo, hgt, htt, hin, hev] at h
                                  simp at h
                              | error e1 =>
                                  simp only [InfixToPostfixGo, hgt, htt, hin, hev,
                                    Prod.mk.injEq] at h
                                  have hv1 : v1 = v0 := by
                                    have hs := EvaluatePostfixGo_store F p0 [] v0
                                    rw [show EvaluatePostfixGo F p0 [] v0
                                          = EvaluatePostfix F p0 v0 from rfl, hev] at hs
                                    exact hs
                                  rcases InfixToPostfixGo_ok_store F n rest [] [] vars v0 p0 hin
                                    with hsame | ⟨v, hp0⟩
                                  · rw [h.2.symm, hv1, hsame]
                                  · rw [hp0, EvaluatePostfix_single_num] at hev
                                    simp at hev
              | END =>
                  simp only [InfixToPostfixGo, hgt, htt] at h
                  exact ih _ _ _ _ _ _ h

theorem skipSpaces_length : ∀ l : List Char, (skipSpaces l).length ≤ l.length := by
  intro l
  induction l with
  | nil => exact Nat.le_refl _
  | cons c cs ih =>
      cases hc : isspaceC c
      · simp [skipSpaces, hc]
      · simp only [skipSpaces, hc, if_true]
        exact Nat.le_trans ih (Nat.le_succ _)

theorem lexNumber_length :
    ∀ (l : List Char) (num : ℚ) (d : Int),
      (lexNumber l num d).2.length ≤ l.length := by
  intro l
  induction l with
  | nil => intro num d; exact Nat.le_refl _
  | cons c cs ih =>
      intro num d
      simp only [lexNumber]
      by_cases h1 : (isdigitC c || c = '.') = true
      · simp only [if_pos h1]
        by_cases h2 : c = '.'
        · simp only [if_pos h2]
          exact Nat.le_trans (ih _ _) (Nat.le_succ _)
        · simp only [if_neg h2]
          by_cases h3 : d = -1
          · simp only [if_pos h3]
            exact Nat.le_trans (ih _ _) (Nat.le_succ _)
          · simp only [if_neg h3]
            exact Nat.le_trans (ih _ _) (Nat.le_succ _)
      · simp only [if_neg h1]
        exact Nat.le_refl _

theorem lexNumber_cons_length (c : Char) (cs : List Char) (num : ℚ) (d : Int)
    (h1 : (isdigitC c || c = '.') = true) :
    (lexNumber (c :: cs) num d).2.length ≤ cs.length := by
  simp only [lexNumber, if_pos h1]
  by_cases h2 : c = '.'
  · simp only [if_pos h2]
    exact lexNumber_length _ _ _
  · simp only [if_neg h2]
    by_cases h3 : d = -1
    · simp only [if_pos h3]
      exact lexNumber_length _ _ _
    · simp only [if_neg h3]
      exact lexNumber_length _ _ _

theorem lexIdent_length :
    ∀ (l : List Char) (name : String), (lexIdent l name).2.length ≤ l.length := by
  intro l
  induction l with
  | nil => intro name; exact Nat.le_refl _
  | cons c cs ih =>
      intro name
      simp only [lexIdent]
      by_cases h1 : isalnumC c = true
      · simp only [if_pos h1]
        exact Nat.le_trans (ih _) (Nat.le_succ _)
      · simp only [if_neg h1]
        exact Nat.le_refl _

theorem lexIdent_cons_length (c : Char) (cs : List Char) (name : String)
    (h1 : isalnumC c = true) :
    (lexIdent (c :: cs) name).2.length ≤ cs.length := by
  simp only [lexIdent, if_pos h1]
  exact lexIdent_length _ _

theorem isalnumC_of_isalphaC (c : Char) (h : isalphaC c = true) :
    isalnumC c = true := by
  simp [isalnumC, h]

/-- Each successfully produced token consumes at least one character of a
non-empty input: the basis of the fuel bound `length + 1`. -/
theorem GetNextToken_progress :
    ∀ (chars : List Char) (t : Token) (rest : List Char),
      GetNextToken chars = Except.ok (t, rest) → chars ≠ [] →
      rest.length < chars.length := by
  intro chars t rest h hne
  have hne1 : 1 ≤ chars.length := by
    cases chars
    · exact absurd rfl hne
    · simp
  rw [GetNextToken] at h
  cases hss : skipSpaces chars with
  | nil =>
      simp only [hss, Except.ok.injEq, Prod.mk.injEq] at h
      obtain ⟨-, h2⟩ := h
      subst h2
      simpa using hne1
  | cons c cs =>
      have hlen : cs.length + 1 ≤ chars.length := by
        have hs := skipSpaces_length chars
        rw [hss] at hs
        simpa using hs
      simp only [hss] at h
      by_cases h1 : (isdigitC c || c = '.') = true
      · simp only [if_pos h1, Except.ok.injEq, Prod.mk.injEq] at h
        obtain ⟨-, h2⟩ := h
        subst h2
        have hb := lexNumber_cons_length c cs 0 (-1) h1
        omega
      · simp only [if_neg h1] at h
        by_cases h2 : isalphaC c = true
        · simp only [if_pos h2] at h
          have hb : (skipSpaces (lexIdent (c :: cs) "").2).length ≤ cs.length :=
            Nat.le_trans (skipSpaces_length _)
              (lexIdent_cons_length c cs "" (isalnumC_of_isalphaC c h2))
          cases hm : skipSpaces (lexIdent (c :: cs) "").2 with
          | nil =>
              rw [hm] at h
              simp only [afterIdent] at h
              by_cases hfc : functions.contains (lexIdent (c :: cs) "").1 = true
              · simp only [if_pos hfc, Except.ok.injEq, Prod.mk.injEq] at h
                obtain ⟨-, hr⟩ := h
                subst hr
                simpa using hne1
              · simp only [if_neg hfc, Except.ok.injEq, Prod.mk.injEq] at h
                obtain ⟨-, hr⟩ := h
                subst hr
                simpa using hne1
          | cons c2 cs2 =>
              rw [hm] at h
              rw [hm] at hb
              simp only [afterIdent, List.length_cons] at h hb
              by_cases he : c2 = '='
              · simp only [if_pos he, Except.ok.injEq, Prod.mk.injEq] at h
                obtain ⟨-, hr⟩ := h
                subst hr
                omega
              · simp only [if_neg he] at h
                by_cases hfc : functions.contains (lexIdent (c :: cs) "").1 = true
                · simp only [if_pos hfc, Except.ok.injEq, Prod.mk.injEq] at h
                  obtain ⟨-, hr⟩ := h
                  subst hr
                  simp only [List.length_cons]
                  omega
                · simp only [if_neg hfc, Except.ok.injEq, Prod.mk.injEq] at h
                  obtain ⟨-, hr⟩ := h
                  subst hr
                  simp only [List.length_cons]
                  omega
        · simp only [if_neg h2] at h
          by_cases h3 : opChars.contains c = true
          · simp only [if_pos h3, Except.ok.injEq, Prod.mk.injEq] at h
            obtain ⟨-, hr⟩ := h
            subst hr
            omega
          · simp only [if_neg h3] at h
            exact absurd h (by simp)

/-- The converter's result does not depend on the fuel once the fuel
exceeds the number of remaining characters (the C++ loop has no fuel; the
bound holds because each token consumes at least one character). -/
theorem InfixToPostfixGo_fuel (F : String → ℚ → ℚ) :
    ∀ (n : Nat) (chars : List Char), chars.length ≤ n →
      ∀ (f1 f2 : Nat), chars.length < f1 → chars.length < f2 →
        ∀ (stack result : List Token) (vars : VarStore),
          InfixToPostfixGo F f1 chars stack result vars =
            InfixToPostfixGo F f2 chars stack result vars := by
  intro n
  induction n with
  | zero =>
      intro chars hlen f1 f2 h1 h2 stack result vars
      have hc : chars = [] := List.length_eq_zero.mp (Nat.le_zero.mp hlen)
      subst hc
      cases f1 with
      | zero => exact absurd h1 (Nat.lt_irrefl 0)
      | succ m1 =>
          cases f2 with
          | zero => exact absurd h2 (Nat.lt_irrefl 0)
          | succ m2 => rfl
  | succ n ih =>
      intro chars hlen f1 f2 h1 h2 stack result vars
      cases chars with
      | nil =>
          cases f1 with
          | zero => exact absurd h1 (Nat.lt_irrefl 0)
          | succ m1 =>
              cases f2 with
              | zero => exact absurd h2 (Nat.lt_irrefl 0)
              | succ m2 => rfl
      | cons c cs =>
          cases f1 with
          | zero => exact absurd h1 (Nat.not_lt_zero _)
          | succ m1 =>
              cases f2 with
              | zero => exact absurd h2 (Nat.not_lt_zero _)
              | succ m2 =>
                  cases hgt : GetNextToken (c :: cs) with
                  | error e => simp only [InfixToPostfixGo, hgt]
                  | ok p =>
                      obtain ⟨token, rest⟩ := p
                      have hprog : rest.length < cs.length + 1 := by
                        simpa using
                          GetNextToken_progress (c :: cs) token rest hgt (by simp)
                      have hcs : cs.length + 1 ≤ n + 1 := by
                        simpa using hlen
                      have hm1 : cs.length < m1 := by
                        have := h1
                        simp only [List.length_cons] at this
                        omega
                      have hm2 : cs.length < m2 := by
                        have := h2
                        simp only [List.length_cons] at this
                        omega
                      have hr : rest.length ≤ n := by omega
                      have hrm1 : rest.length < m1 := by omega
                      have hrm2 : rest.length < m2 := by omega
                      cases htt : token.type with
                      | NUMBER =>
                          simp only [InfixToPostfixGo, hgt, htt]
                          exact ih rest hr m1 m2 hrm1 hrm2 _ _ _
                      | VARIABLE =>
                          simp only [InfixToPostfixGo, hgt, htt]
                          exact ih rest hr m1 m2 hrm1 hrm2 _ _ _
                      | FUNCTION =>
                          simp only [InfixToPostfixGo, hgt, htt]
                          exact ih rest hr m1 m2 hrm1 hrm2 _ _ _
                      | OPERATOR =>
                          simp only [InfixToPostfixGo, hgt, htt]
                          exact ih rest hr m1 m2 hrm1 hrm2 _ _ _
                      | PARENTHESIS =>
                          by_cases hpo : token.op = '('
                          · simp only [InfixToPostfixGo, hgt, htt, if_pos hpo]
                            exact ih rest hr m1 m2 hrm1 hrm2 _ _ _
                          · by_cases hpc : token.op = ')'
                            · cases hpop : (popUntilParen stack result).1 with
                              | nil =>
                                  simp only [InfixToPostfixGo, hgt, htt,
                                    if_neg hpo, if_pos hpc, hpop]
                              | cons t2 stack2 =>
                                  simp only [InfixToPostfixGo, hgt, htt,
                                    if_neg hpo, if_pos hpc, hpop]
                                  exact ih rest hr m1 m2 hrm1 hrm2 _ _ _
                            · simp only [InfixToPostfixGo, hgt, htt,
                                if_neg hpo, if_neg hpc]
                              exact ih rest hr m1 m2 hrm1 hrm2 _ _ _
                      | ASSIGNMENT =>
                          simp only [InfixToPostfixGo, hgt, htt]
                          rw [ih rest hr m1 m2 hrm1 hrm2 [] [] vars]
                      | END =>
                          simp only [InfixToPostfixGo, hgt, htt]
                          exact ih rest hr m1 m2 hrm1 hrm2 _ _ _

/-- The operator switch can fail only with division-by-zero or
unknown-operator, never with the underflow marker. -/
theorem GetOperatorResult_ne_underflow (op : Char) (a b : ℚ) :
    GetOperatorResult op a b ≠ Except.error Err.stackUnderflow := by
  unfold GetOperatorResult
  split_ifs <;> simp

/-- The function dispatch can fail only with unknown-function, never with
the underflow marker. -/
theorem GetFunctionResult_ne_underflow (F : String → ℚ → ℚ) (f : String)
    (a : ℚ) : GetFunctionResult F f a ≠ Except.error Err.stackUnderflow := by
  unfold GetFunctionResult
  split_ifs <;> simp

/-- On a well-formed postfix sequence the evaluator never touches an empty
operand stack: every unguarded `stack.top()`/`stack.pop()` of the source is
then reached with a non-empty stack. -/
theorem wfPostfix_no_underflow (F : String → ℚ → ℚ) :
    ∀ (ts : List Token) (stack : List ℚ) (vars : VarStore),
      wfPostfix ts stack.length = true →
      (EvaluatePostfixGo F ts stack vars).1 ≠ Except.error Err.stackUnderflow := by
  intro ts
  induction ts with
  | nil =>
      intro stack vars h
      simp only [wfPostfix, beq_iff_eq] at h
      cases stack with
      | nil => simp at h
      | cons v s => simp [EvaluatePostfixGo]
  | cons t ts ih =>
      intro stack vars h
      cases htt : t.type with
      | NUMBER =>
          simp only [wfPostfix, htt] at h
          simp only [EvaluatePostfixGo, htt]
          exact ih (t.value :: stack) vars (by simpa using h)
      | VARIABLE =>
          simp only [wfPostfix, htt] at h
          cases hl : List.lookup t.func vars with
          | none => simp [EvaluatePostfixGo, htt, hl]
          | some v =>
              simp only [EvaluatePostfixGo, htt, hl, mapGet]
              exact ih (v :: stack) vars (by simpa using h)
      | OPERATOR =>
          simp only [wfPostfix, htt, Bool.and_eq_true, decide_eq_true_eq] at h
          obtain ⟨hge, hwf⟩ := h
          cases stack with
          | nil => simp at hge
          | cons a s1 =>
              cases s1 with
              | nil => simp at hge
              | cons b s2 =>
                  cases hop : GetOperatorResult t.op b a with
                  | ok r =>
                      simp only [EvaluatePostfixGo, htt, hop]
                      refine ih (r :: s2) vars ?_
                      simp only [List.length_cons] at hwf ⊢
                      simpa using hwf
                  | error e =>
                      simp only [EvaluatePostfixGo, htt, hop]
                      intro hc
                      simp only [Except.error.injEq] at hc
                      rw [hc] at hop
                      exact GetOperatorResult_ne_underflow t.op b a hop
      | FUNCTION =>
          simp only [wfPostfix, htt, Bool.and_eq_true, decide_eq_true_eq] at h
          obtain ⟨hge, hwf⟩ := h
          cases stack with
          | nil => simp at hge
          | cons a s1 =>
              cases hf : GetFunctionResult F t.func a with
              | ok r =>
                  simp only [EvaluatePostfixGo, htt, hf]
                  exact ih (r :: s1) vars (by simpa using hwf)
              | error e =>
                  simp only [EvaluatePostfixGo, htt, hf]
                  intro hc
                  simp only [Except.error.injEq] at hc
                  rw [hc] at hf
                  exact GetFunctionResult_ne_underflow F t.func a hf
      | ASSIGNMENT =>
          simp only [wfPostfix, htt] at h
          simp only [EvaluatePostfixGo, htt]
          exact ih stack vars h
      | PARENTHESIS =>
          simp only [wfPostfix, htt] at h
          simp only [EvaluatePostfixGo, htt]
          exact ih stack vars h
      | END =>
          simp only [wfPostfix, htt] at h
          simp only [EvaluatePostfixGo, htt]
          exact ih stack vars h

/-- Claim C1 (code bug): the claim's decimal semantics does not hold of the
code.  In the numeric-literal loop `decimals` is set to `0` at the decimal
point and incremented only after a digit is consumed, so the k-th digit
after the point is weighted `10^(1-k)`, not `10^(-k)`: "0.5" lexes to the
Number 5 (not 0.5) and "3.14" to 22/5 = 4.4 (not 3.14); the integer part
("42") is accumulated correctly. -/
theorem claim_C1_code_eval :
    GetNextToken ("0.5").data = Except.ok (numTok 5, []) ∧
    GetNextToken ("3.14").data = Except.ok (numTok (22 / 5), []) ∧
    GetNextToken ("42").data = Except.ok (numTok 42, []) ∧
    EvaluateExpression F0 ("0.5").data [] = (Except.ok 5, []) := by
  refine ⟨?_, ?_, ?_, ?_⟩ <;> with_unfolding_all decide

/-- Claim C2: binary operators group by the precedence table (+ and - are
1, * and / are 2, ^ is 3, anything else 0) and equal precedence groups
left-to-right, including ^, because the converter pops while the top
operator's precedence is greater than or equal to the incoming one's:
"2+3*4" evaluates to 14, "(2+3)*4" to 20, and "2^3^2" to 64 = (2^3)^2,
not 512. -/
theorem claim_C2 :
    (GetPrecedence '+' = 1 ∧ GetPrecedence '-' = 1 ∧ GetPrecedence '*' = 2 ∧
      GetPrecedence '/' = 2 ∧ GetPrecedence '^' = 3) ∧
    (∀ c : Char, c ∉ (['+', '-', '*', '/', '^'] : List Char) →
      GetPrecedence c = 0) ∧
    (∀ (op : Char) (t : Token) (ts result : List Token),
      GetPrecedence op ≤ GetPrecedence t.op →
      popGE op (t :: ts) result = popGE op ts (result ++ [t])) ∧
    (∀ (op : Char) (t : Token) (ts result : List Token),
      GetPrecedence t.op < GetPrecedence op →
      popGE op (t :: ts) result = (t :: ts, result)) ∧
    EvaluateExpression F0 ("2+3*4").data [] = (Except.ok 14, []) ∧
    EvaluateExpression F0 ("(2+3)*4").data [] = (Except.ok 20, []) ∧
    EvaluateExpression F0 ("2^3^2").data [] = (Except.ok 64, []) := by
  refine ⟨by with_unfolding_all decide, ?_, ?_, ?_,
    by with_unfolding_all decide, by with_unfolding_all decide,
    by with_unfolding_all decide⟩
  · intro c hc
    simp only [List.mem_cons, List.not_mem_nil, or_false, not_or] at hc
    obtain ⟨h1, h2, h3, h4, h5⟩ := hc
    have e1 : (c == '+') = false := beq_eq_false_iff_ne.mpr h1
    have e2 : (c == '-') = false := beq_eq_false_iff_ne.mpr h2
    have e3 : (c == '*') = false := beq_eq_false_iff_ne.mpr h3
    have e4 : (c == '/') = false := beq_eq_false_iff_ne.mpr h4
    have e5 : (c == '^') = false := beq_eq_false_iff_ne.mpr h5
    simp [GetPrecedence, precedences, List.lookup, e1, e2, e3, e4, e5]
  · intro op t ts result hle
    simp [popGE, if_pos hle]
  · intro op t ts result hlt
    simp [popGE, if_neg (not_le.mpr hlt)]

/-- Witness for claim C2's conditional conjuncts at concrete inputs. -/
theorem claim_C2_witness :
    (('%' : Char) ∉ (['+', '-', '*', '/', '^'] : List Char) ∧
      GetPrecedence '%' = 0) ∧
    (GetPrecedence '+' ≤ GetPrecedence (opTok '*').op ∧
      popGE '+' [opTok '*'] [] = popGE '+' [] ([] ++ [opTok '*'])) ∧
    (GetPrecedence (opTok '+').op < GetPrecedence '^' ∧
      popGE '^' [opTok '+'] [] = ([opTok '+'], [])) :=
  ⟨⟨by decide, claim_C2.2.1 '%' (by decide)⟩,
   ⟨by with_unfolding_all decide,
    claim_C2.2.2.1 '+' (opTok '*') [] [] (by with_unfolding_all decide)⟩,
   ⟨by with_unfolding_all decide,
    claim_C2.2.2.2.1 '^' (opTok '+') [] [] (by with_unfolding_all decide)⟩⟩

/-- Claim C3: an ASSIGNMENT token makes the converter evaluate the rest of
the original input (from the current lexer position) as a full expression
sharing the store, store the result under the name, and return it as the
single-NUMBER output, discarding whatever stack and output were collected
so far; "x = 5" returns 5 and sets x, a following "x + 1" returns 6, and
an assignment mid-expression ("2 + x = 5") short-circuits the same way. -/
theorem claim_C3 :
    (∀ (F : String → ℚ → ℚ) (chars : List Char) (fuel : Nat)
      (stack result : List Token) (vars : VarStore) (name : String)
      (rest : List Char),
      GetNextToken chars = Except.ok (assignTok name, rest) →
      chars.length < fuel →
      InfixToPostfixGo F fuel chars stack result vars =
        (match EvaluateExpression F rest vars with
         | (Except.ok value, vars1) =>
             (Except.ok [numTok value], setVar name value vars1)
         | (Except.error e, vars1) => (Except.error e, vars1))) ∧
    EvaluateExpression F0 ("x = 5").data [] = (Except.ok 5, [("x", 5)]) ∧
    EvaluateExpression F0 ("x + 1").data [("x", 5)] =
      (Except.ok 6, [("x", 5)]) ∧
    EvaluateExpression F0 ("2 + x = 5").data [] = (Except.ok 5, [("x", 5)]) := by
  refine ⟨?_, by with_unfolding_all decide, by with_unfolding_all decide,
    by with_unfolding_all decide⟩
  intro F chars fuel stack result vars name rest hgt hfu
  cases fuel with
  | zero => exact absurd hfu (Nat.not_lt_zero _)
  | succ m =>
      cases chars with
      | nil =>
          rw [GetNextToken] at hgt
          simp only [skipSpaces] at hgt
          simp [endTok, assignTok] at hgt
      | cons c cs =>
          have hrest : rest.length < cs.length + 1 := by
            simpa using GetNextToken_progress (c :: cs) _ _ hgt (by simp)
          have hflt : rest.length < m := by
            simp only [List.length_cons] at hfu
            omega
          simp only [InfixToPostfixGo, hgt, assignTok]
          rw [InfixToPostfixGo_fuel F rest.length rest (Nat.le_refl _) m
            (rest.length + 1) hflt (Nat.lt_succ_self _) [] [] vars]
          cases hin : InfixToPostfixGo F (rest.length + 1) rest [] [] vars with
          | mk r0 v0 =>
              cases r0 with
              | ok p0 =>
                  cases hev : EvaluatePostfix F p0 v0 with
                  | mk r1 v1 =>
                      cases r1 with
                      | ok value =>
                          simp only [EvaluateExpression, EvaluateExpressionGo,
                            hin, hev]
                      | error e1 =>
                          simp only [EvaluateExpression, EvaluateExpressionGo,
                            hin, hev]
              | error e0 =>
                  simp only [EvaluateExpression, EvaluateExpressionGo, hin]

/-- Witness for claim C3's general conjunct: the assignment token of
"x = 5" short-circuits a converter run whose stack and output are already
non-empty. -/
theorem claim_C3_witness :
    GetNextToken ("x = 5").data = Except.ok (assignTok "x", [' ', '5']) ∧
    ("x = 5").data.length < 6 ∧
    InfixToPostfixGo F0 6 ("x = 5").data [opTok '+'] [numTok 2] [] =
      (match EvaluateExpression F0 [' ', '5'] [] with
       | (Except.ok value, vars1) =>
           (Except.ok [numTok value], setVar "x" value vars1)
       | (Except.error e, vars1) => (Except.error e, vars1)) :=
  ⟨by with_unfolding_all decide, by with_unfolding_all decide,
   claim_C3.1 F0 ("x = 5").data 6 [opTok '+'] [numTok 2] [] "x" [' ', '5']
     (by with_unfolding_all decide) (by with_unfolding_all decide)⟩

/-- Claim C4 counterexample: on the input "= 5" the lexer does not fail at
all — it produces an Operator token for the standalone '=' ('=' is in the
source's "+-*/^=()" character class), contradicting the claim that an
unexpected-character error is raised and no token is produced. -/
theorem claim_C4_counterexample :
    GetNextToken ("= 5").data = Except.ok (opTok '=', [' ', '5']) ∧
    ∀ e : Err, GetNextToken ("= 5").data ≠ Except.error e := by
  have h : GetNextToken ("= 5").data = Except.ok (opTok '=', [' ', '5']) := by
    with_unfolding_all decide
  exact ⟨h, fun e he => by rw [h] at he; simp at he⟩

/-- Claim C4 (amended): a '=' reached outside the identifier-lookahead path
is lexed as an Operator token with symbol '=' and precedence 0 — never an
unexpected-character error.  Failures surface only downstream: "2 = 3"
fails with unknown-operator in GetOperatorResult, and "= 5" reaches an
unguarded pop of the empty operand stack. -/
theorem claim_C4 :
    (∀ cs : List Char, GetNextToken ('=' :: cs) = Except.ok (opTok '=', cs)) ∧
    GetPrecedence '=' = 0 ∧
    EvaluateExpression F0 ("2 = 3").data [] =
      (Except.error Err.unknownOperator, []) ∧
    EvaluateExpression F0 ("= 5").data [] =
      (Except.error Err.stackUnderflow, []) := by
  refine ⟨?_, by with_unfolding_all decide, by with_unfolding_all decide,
    by with_unfolding_all decide⟩
  intro cs
  rfl

/-- Claim C6: an Operator token pops two operands, the first pop being the
right-hand operand and the second the left-hand one, and '/' fails with
division-by-zero exactly when the right-hand operand is zero, a nonzero
divisor yielding the quotient; "5/0" fails with the division error. -/
theorem claim_C6 :
    (∀ (F : String → ℚ → ℚ) (op : Char) (vv : ℚ) (ff : String)
      (rest : List Token) (a b : ℚ) (stack : List ℚ) (vars : VarStore),
      EvaluatePostfixGo F (Token.mk TokenType.OPERATOR vv op ff :: rest)
          (a :: b :: stack) vars =
        match GetOperatorResult op b a with
        | Except.ok r => EvaluatePostfixGo F rest (r :: stack) vars
        | Except.error e => (Except.error e, vars)) ∧
    (∀ a b : ℚ, GetOperatorResult '/' a b =
      if b = 0 then Except.error Err.divisionByZero else Except.ok (a / b)) ∧
    EvaluateExpression F0 ("5/0").data [] =
      (Except.error Err.divisionByZero, []) ∧
    EvaluateExpression F0 ("5/2").data [] = (Except.ok (5 / 2), []) := by
  refine ⟨fun F op vv ff rest a b stack vars => rfl, fun a b => rfl,
    by with_unfolding_all decide, by with_unfolding_all decide⟩

/-- Claim C7: a Variable token whose name is absent from the store fails
with undefined-variable instead of defaulting to zero, and a present name
pushes its stored value; "y + 1" against the empty store fails. -/
theorem claim_C7 :
    (∀ (F : String → ℚ → ℚ) (vv : ℚ) (oc : Char) (name : String)
      (rest : List Token) (stack : List ℚ) (vars : VarStore),
      List.lookup name vars = none →
      EvaluatePostfixGo F (Token.mk TokenType.VARIABLE vv oc name :: rest)
          stack vars = (Except.error (Err.undefinedVariable name), vars)) ∧
    (∀ (F : String → ℚ → ℚ) (vv : ℚ) (oc : Char) (name : String)
      (rest : List Token) (stack : List ℚ) (vars : VarStore) (v : ℚ),
      List.lookup name vars = some v →
      EvaluatePostfixGo F (Token.mk TokenType.VARIABLE vv oc name :: rest)
          stack vars = EvaluatePostfixGo F rest (v :: stack) vars) ∧
    EvaluateExpression F0 ("y + 1").data [] =
      (Except.error (Err.undefinedVariable "y"), []) := by
  refine ⟨?_, ?_, by with_unfolding_all decide⟩
  · intro F vv oc name rest stack vars h
    simp [EvaluatePostfixGo, h]
  · intro F vv oc name rest stack vars v h
    simp [EvaluatePostfixGo, h, mapGet]

/-- Witness for claim C7's two conditional conjuncts at concrete stores. -/
theorem claim_C7_witness :
    (List.lookup "q" ([] : VarStore) = none ∧
      EvaluatePostfixGo F0 [Token.mk TokenType.VARIABLE 0 nullChar "q"] [] [] =
        (Except.error (Err.undefinedVariable "q"), [])) ∧
    (List.lookup "z" ([("z", 7)] : VarStore) = some 7 ∧
      EvaluatePostfixGo F0 [Token.mk TokenType.VARIABLE 0 nullChar "z"] []
          [("z", 7)] = EvaluatePostfixGo F0 [] [7] [("z", 7)]) :=
  ⟨⟨by with_unfolding_all decide,
    claim_C7.1 F0 0 nullChar "q" [] [] [] (by with_unfolding_all decide)⟩,
   ⟨by with_unfolding_all decide,
    claim_C7.2.1 F0 0 nullChar "z" [] [] [("z", 7)] 7
      (by with_unfolding_all decide)⟩⟩

/-- Claim C8: whenever EvaluateExpression fails, the store it returns is
exactly the store it was given — the single store write happens only after
an assignment's right-hand side evaluated successfully, and then the whole
evaluation returns successfully, so no error leaves a partial write,
nested assignments included. -/
theorem claim_C8 :
    ∀ (F : String → ℚ → ℚ) (chars : List Char) (vars : VarStore) (e : Err),
      (EvaluateExpression F chars vars).1 = Except.error e →
      (EvaluateExpression F chars vars).2 = vars := by
  intro F chars vars e h
  unfold EvaluateExpression EvaluateExpressionGo at h ⊢
  cases hin : InfixToPostfixGo F (chars.length + 1) chars [] [] vars with
  | mk r0 v0 =>
      cases r0 with
      | error e0 =>
          simp only [hin]
          exact InfixToPostfixGo_error_store F _ _ _ _ _ _ _ hin
      | ok p0 =>
          simp only [hin] at h ⊢
          have hst : (EvaluatePostfix F p0 v0).2 = v0 :=
            EvaluatePostfixGo_store F p0 [] v0
          rcases InfixToPostfixGo_ok_store F _ _ _ _ _ _ _ hin with
            hsame | ⟨v, hp0⟩
          · rw [hst, hsame]
          · rw [hp0, EvaluatePostfix_single_num] at h
            simp at h

/-- Witness for claim C8: a failing nested assignment ("x = y = 5/0")
leaves the store untouched. -/
theorem claim_C8_witness :
    (EvaluateExpression F0 ("x = y = 5/0").data [("a", 1)]).1 =
      Except.error Err.divisionByZero ∧
    (EvaluateExpression F0 ("x = y = 5/0").data [("a", 1)]).2 = [("a", 1)] :=
  ⟨by with_unfolding_all decide,
   claim_C8 F0 ("x = y = 5/0").data [("a", 1)] Err.divisionByZero
     (by with_unfolding_all decide)⟩

/-- Claim C9: EvaluatePostfix never writes the store — for every postfix
sequence and every store, the store after evaluation (value or failure) is
exactly the store before; in particular a successful lookup inserts and
alters nothing. -/
theorem claim_C9 :
    ∀ (F : String → ℚ → ℚ) (ts : List Token) (vars : VarStore),
      (EvaluatePostfix F ts vars).2 = vars :=
  fun F ts vars => EvaluatePostfixGo_store F ts [] vars

/-- Claim C10: under the well-formedness precondition (every Operator token
finds two operands, every Function token one, exactly one value remains)
the evaluator never reaches an empty-stack access, while at the public
interface the empty input, "+" and "2+" all reach an unguarded top or pop
of the empty operand stack (the model's `Err.stackUnderflow`) instead of a
descriptive error. -/
theorem claim_C10 :
    (∀ (F : String → ℚ → ℚ) (ts : List Token) (vars : VarStore),
      wfPostfix ts 0 = true →
      (EvaluatePostfix F ts vars).1 ≠ Except.error Err.stackUnderflow) ∧
    EvaluateExpression F0 ("").data [] =
      (Except.error Err.stackUnderflow, []) ∧
    EvaluateExpression F0 ("+").data [] =
      (Except.error Err.stackUnderflow, []) ∧
    EvaluateExpression F0 ("2+").data [] =
      (Except.error Err.stackUnderflow, []) := by
  refine ⟨?_, by with_unfolding_all decide, by with_unfolding_all decide,
    by with_unfolding_all decide⟩
  intro F ts vars h
  exact wfPostfix_no_underflow F ts [] vars (by simpa using h)

/-- Witness for claim C10's precondition conjunct on a well-formed
singleton sequence. -/
theorem claim_C10_witness :
    wfPostfix [numTok 5] 0 = true ∧
    (EvaluatePostfix F0 [numTok 5] []).1 ≠ Except.error Err.stackUnderflow :=
  ⟨by with_unfolding_all decide,
   claim_C10.1 F0 [numTok 5] [] (by with_unfolding_all decide)⟩

end SmartCalc
